import Mathlib

/-!
Verification of the GhostMem page-fault-driven compression/eviction engine
(`src/ghostmem/GhostMemoryManager.{h,cpp}`) against its specification.

The C++ manager is shallowly embedded: machine pointers become natural
numbers (page-aligned addresses), the `std::map` members become association
lists, the swap file becomes a list of bytes together with the write cursor,
and committed physical pages become an association list from page address to
page contents.  The LZ4 codec is an opaque parameter (a `Codec`), exactly as
the source treats it; a compressor result of length zero models
`LZ4_compress_default` returning `<= 0`.  Disk-write success is a boolean
parameter, modelling the success or failure of the `write(2)` call inside
`WriteToDisk`.

All definitions follow the Linux (`#else`) branch of the source, which is the
branch the specification describes.
-/

namespace GhostMem

/-- Constant `PAGE_SIZE` from `GhostMemoryManager.h`. -/
def PAGE_SIZE : Nat := 4096

/-- Constant `MAX_PHYSICAL_PAGES` from `GhostMemoryManager.h`. -/
def MAX_PHYSICAL_PAGES : Nat := 5

/-- Structure `GhostConfig` from `GhostMemoryManager.h`, with the default member
values of the source. -/
structure GhostConfig where
  use_disk_backing : Bool := false
  disk_file_path : String := "ghostmem.swap"
  max_memory_pages : Nat := 0
  compress_before_disk : Bool := true
  enable_verbose_logging : Bool := false
  encrypt_disk_pages : Bool := false
deriving Repr, DecidableEq

/-- Structure `AllocationInfo` from `GhostMemoryManager.h`. -/
structure AllocationInfo where
  page_start : Nat
  offset : Nat
  size : Nat
deriving Repr, DecidableEq

/-- Association-list lookup, modelling `std::map::find`. -/
def alookup {α : Type} (m : List (Nat × α)) (k : Nat) : Option α :=
  (m.find? (fun e => e.1 == k)).map (fun e => e.2)

/-- Association-list erase, modelling `std::map::erase`. -/
def aerase {α : Type} (m : List (Nat × α)) (k : Nat) : List (Nat × α) :=
  m.filter (fun e => !(e.1 == k))

/-- Association-list insert-or-assign, modelling `std::map::operator[] = v`. -/
def aset {α : Type} (m : List (Nat × α)) (k : Nat) (v : α) : List (Nat × α) :=
  (k, v) :: aerase m k

/-- The mutable state of the `GhostMemoryManager` singleton.  `mem` maps a
page address to its contents while the page is committed (readable/writable);
a page absent from `mem` is decommitted (`PROT_NONE`). -/
structure MState where
  config : GhostConfig := {}
  managed_blocks : List (Nat × Nat) := []
  backing_store : List (Nat × List Nat) := []
  disk_page_locations : List (Nat × Nat × Nat) := []
  disk_file : List Nat := []
  disk_next_offset : Nat := 0
  active_ram_pages : List Nat := []
  allocation_metadata : List (Nat × AllocationInfo) := []
  page_ref_counts : List (Nat × Nat) := []
  mem : List (Nat × List Nat) := []
  lib_meta_init : Bool := false
deriving Repr, DecidableEq

/-- The opaque LZ4 block codec.  `compress` models
`LZ4_compress_default(src, dst, PAGE_SIZE, bound)`: a result of length zero
models the failure return `<= 0`.  `decompress src cap` models the contents of
a `cap`-byte destination buffer after `LZ4_decompress_safe(src, dst, |src|,
cap)`. -/
structure Codec where
  compress : List Nat → List Nat
  decompress : List Nat → Nat → List Nat

/-- The codec contract the specification assumes of LZ4: on a full page,
compression succeeds and decompression is its exact inverse. -/
def Codec.lawful (c : Codec) : Prop :=
  ∀ p : List Nat, p.length = PAGE_SIZE →
    0 < (c.compress p).length ∧ c.decompress (c.compress p) PAGE_SIZE = p

/-- Contents of a committed page as `FreezePage` reads them through
`page_start`; an uncommitted page reads as an unspecified (here: zero) page. -/
def getPage (st : MState) (p : Nat) : List Nat :=
  (alookup st.mem p).getD (List.replicate PAGE_SIZE 0)

/-- A write into the swap file at byte offset `off` (POSIX `lseek` +
`write`): bytes before `off` are kept, a seek past the end zero-fills, and the
data overwrites from `off` on. -/
def writeBytesAt (file : List Nat) (off : Nat) (data : List Nat) : List Nat :=
  file.take off ++ List.replicate (off - file.length) 0 ++ data
    ++ file.drop (off + data.length)

/-- Method `GhostMemoryManager::WriteToDisk`: on success, writes at the current
cursor, returns the offset written at, and advances the cursor.  `wo` models
success of the underlying `write(2)`. -/
def WriteToDisk (wo : Bool) (st : MState) (data : List Nat) :
    Option (MState × Nat) :=
  if wo then
    some ({ st with
              disk_file := writeBytesAt st.disk_file st.disk_next_offset data,
              disk_next_offset := st.disk_next_offset + data.length },
          st.disk_next_offset)
  else none

/-- Method `GhostMemoryManager::ReadFromDisk`: succeeds exactly when the requested
range lies inside the file. -/
def ReadFromDisk (st : MState) (off sz : Nat) : Option (List Nat) :=
  if off + sz ≤ st.disk_file.length then
    some ((st.disk_file.drop off).take sz)
  else none

/-- Decommit, i.e. `mprotect(page, PAGE_SIZE, PROT_NONE)` on Linux:
the page stops being committed. -/
def decommitPage (st : MState) (p : Nat) : MState :=
  { st with mem := aerase st.mem p }

/-- Method `GhostMemoryManager::FreezePage` (GhostMemoryManager.cpp:533-616).
Note the source contains no encryption step: `config_.encrypt_disk_pages` is
never consulted and `ChaCha20Crypt` is never called (it is declared in the
header but has no definition anywhere in the repository). -/
def FreezePage (c : Codec) (wo : Bool) (st : MState) (p : Nat) : MState :=
  if st.config.use_disk_backing then
    if st.config.compress_before_disk then
      let cd := c.compress (getPage st p)
      if 0 < cd.length then
        match WriteToDisk wo st cd with
        | some (st1, off) =>
            decommitPage
              { st1 with
                disk_page_locations :=
                  aset st1.disk_page_locations p (off, cd.length) } p
        | none => st
      else
        -- compression failed: the source falls through to the decommit
        -- below the `if (compressed_size > 0)` block without storing anything
        decommitPage st p
    else
      match WriteToDisk wo st (getPage st p) with
      | some (st1, off) =>
          decommitPage
            { st1 with
              disk_page_locations :=
                aset st1.disk_page_locations p (off, PAGE_SIZE) } p
      | none => st
  else
    let cd := c.compress (getPage st p)
    if 0 < cd.length then
      decommitPage { st with backing_store := aset st.backing_store p cd } p
    else st

/-- The zombie-page branch of `GhostMemoryManager::EvictOldestPage`
(GhostMemoryManager.cpp:295-324): drop the refcount entry, both backing-store
entries, and the committed memory (`munmap`). -/
def zombieFree (st : MState) (v : Nat) : MState :=
  { st with
      page_ref_counts := aerase st.page_ref_counts v,
      backing_store := aerase st.backing_store v,
      disk_page_locations := aerase st.disk_page_locations v,
      mem := aerase st.mem v }

/-- Processing of one eviction victim (GhostMemoryManager.cpp:293-330): a
refcount that is absent or zero marks a zombie page, reclaimed without
compression; otherwise the page is frozen. -/
def processVictim (c : Codec) (wo : Bool) (st : MState) (v : Nat) : MState :=
  match alookup st.page_ref_counts v with
  | none => zombieFree st v
  | some n => if n = 0 then zombieFree st v else FreezePage c wo st v

/-- Victim selection of `EvictOldestPage` (GhostMemoryManager.cpp:267-291):
take the LRU tail; if that is the protected page, stop when fewer than two
pages are resident (emergency brake), otherwise take the second-to-last page
and remove it from the list.  Returns the victim and the list with the victim
removed, or `none` when the loop breaks. -/
def pickVictim (l : List Nat) (ignore : Nat) : Option (Nat × List Nat) :=
  match l.getLast? with
  | none => none
  | some v =>
    if v = ignore then
      if l.length < 2 then none
      else
        match l.dropLast.getLast? with
        | none => none
        | some v2 => some (v2, l.dropLast.dropLast ++ [v])
    else some (v, l.dropLast)

/-- The effective resident-page limit (GhostMemoryManager.cpp:262-264). -/
def effectiveMax (cfg : GhostConfig) : Nat :=
  if 0 < cfg.max_memory_pages then cfg.max_memory_pages else MAX_PHYSICAL_PAGES

theorem pickVictim_length {l : List Nat} {ignore : Nat} {v : Nat}
    {l' : List Nat} (h : pickVictim l ignore = some (v, l')) :
    l'.length + 1 = l.length := by
  unfold pickVictim at h
  cases hl : l.getLast? with
  | none => simp [hl] at h
  | some w =>
    have hne : l ≠ [] := by
      intro he; rw [he] at hl; simp at hl
    rw [hl] at h
    by_cases hw : w = ignore
    · simp only [hw, if_pos rfl] at h
      by_cases hlen : l.length < 2
      · simp [hlen] at h
      · simp only [if_neg hlen] at h
        cases hl2 : l.dropLast.getLast? with
        | none =>
          rw [hl2] at h; simp at h
        | some w2 =>
          rw [hl2] at h
          simp only [Option.some.injEq, Prod.mk.injEq] at h
          obtain ⟨_, rfl⟩ := h
          have h2 : 2 ≤ l.length := Nat.le_of_not_lt hlen
          have hd : l.dropLast ≠ [] := by
            intro he
            have := congrArg List.length he
            simp [List.length_dropLast] at this
            omega
          simp [List.length_append, List.length_dropLast]
          omega
    · simp only [if_neg hw] at h
      simp only [Option.some.injEq, Prod.mk.injEq] at h
      obtain ⟨_, rfl⟩ := h
      have : 1 ≤ l.length := by
        cases l with
        | nil => exact absurd rfl hne
        | cons a as => simp
      simp [List.length_dropLast]
      omega

theorem FreezePage_active (c : Codec) (wo : Bool) (st : MState) (p : Nat) :
    (FreezePage c wo st p).active_ram_pages = st.active_ram_pages := by
  unfold FreezePage decommitPage WriteToDisk
  by_cases hd : st.config.use_disk_backing <;>
    by_cases hc : st.config.compress_before_disk <;>
      cases wo <;> simp [hd, hc] <;> split <;> simp

theorem processVictim_active (c : Codec) (wo : Bool) (st : MState) (v : Nat) :
    (processVictim c wo st v).active_ram_pages = st.active_ram_pages := by
  unfold processVictim
  cases alookup st.page_ref_counts v with
  | none => rfl
  | some n =>
    by_cases hn : n = 0
    · simp [hn, zombieFree]
    · simp [hn, FreezePage_active]

/-- The `while` loop of `GhostMemoryManager::EvictOldestPage`
(GhostMemoryManager.cpp:266-331), with an explicit fuel: while the resident
count is at or above the limit, pick a victim and either reclaim it (zombie)
or freeze it.  Every iteration removes one page from the resident list, so
any fuel of at least the list length computes the loop's exact fixpoint
(`evictLoop_fuel_sufficient`). -/
def evictLoop (c : Codec) (wo : Bool) :
    Nat → MState → Nat → MState
  | 0, st, _ => st
  | fuel + 1, st, ignore =>
    if effectiveMax st.config ≤ st.active_ram_pages.length then
      match pickVictim st.active_ram_pages ignore with
      | none => st
      | some (v, l') =>
          evictLoop c wo fuel
            (processVictim c wo { st with active_ram_pages := l' } v) ignore
    else st

/-- Method `GhostMemoryManager::EvictOldestPage` (GhostMemoryManager.cpp:257-332). -/
def EvictOldestPage (c : Codec) (wo : Bool) (st : MState) (ignore : Nat) :
    MState :=
  evictLoop c wo st.active_ram_pages.length st ignore

/-- The fuel `st.active_ram_pages.length` is enough: adding more fuel does
not change the result, so `EvictOldestPage` computes the genuine `while`
loop. -/
theorem evictLoop_fuel_sufficient (c : Codec) (wo : Bool) :
    ∀ (fuel : Nat) (st : MState) (ignore : Nat),
      st.active_ram_pages.length ≤ fuel →
      evictLoop c wo (fuel + 1) st ignore = evictLoop c wo fuel st ignore := by
  intro fuel
  induction fuel with
  | zero =>
    intro st ignore h
    have h0 : st.active_ram_pages.length = 0 := Nat.le_zero.mp h
    have hmax : 0 < effectiveMax st.config := by
      unfold effectiveMax MAX_PHYSICAL_PAGES
      split <;> omega
    unfold evictLoop
    rw [h0, if_neg (by omega)]
  | succ fuel ih =>
    intro st ignore h
    show evictLoop c wo (fuel + 1 + 1) st ignore = _
    unfold evictLoop
    by_cases hc : effectiveMax st.config ≤ st.active_ram_pages.length
    · rw [if_pos hc, if_pos hc]
      cases hp : pickVictim st.active_ram_pages ignore with
      | none => rfl
      | some vl =>
        obtain ⟨v, l'⟩ := vl
        have hlen := pickVictim_length hp
        have : (processVictim c wo { st with active_ram_pages := l' }
            v).active_ram_pages.length ≤ fuel := by
          rw [processVictim_active]
          simp only []
          omega
        exact ih _ ignore this
    · rw [if_neg hc, if_neg hc]

/-- Method `GhostMemoryManager::MarkPageAsActive` (GhostMemoryManager.cpp:379-388):
remove every occurrence, then push to the front (MRU). -/
def MarkPageAsActive (st : MState) (p : Nat) : MState :=
  { st with active_ram_pages :=
      p :: st.active_ram_pages.filter (fun q => !(q == p)) }

/-- Method `GhostMemoryManager::AllocateGhost` (GhostMemoryManager.cpp:390-437).
`osptr` is the address the OS reservation (`mmap`) returns, `none` when the
OS refuses. -/
def AllocateGhost (st : MState) (size : Nat) (osptr : Option Nat) :
    MState × Option Nat :=
  let st0 := if st.lib_meta_init then st else { st with lib_meta_init := true }
  match osptr with
  | none => (st0, none)
  | some p =>
    let aligned := ((size + PAGE_SIZE - 1) / PAGE_SIZE) * PAGE_SIZE
    let num := aligned / PAGE_SIZE
    let st1 := { st0 with
      managed_blocks := aset st0.managed_blocks p aligned,
      allocation_metadata :=
        aset st0.allocation_metadata p ⟨p, 0, size⟩ }
    let st2 := (List.range num).foldl
      (fun acc i =>
        { acc with
          page_ref_counts :=
            aset acc.page_ref_counts (p + i * PAGE_SIZE)
              ((((alookup acc.page_ref_counts (p + i * PAGE_SIZE)).getD 0)
                 + 1) % 2 ^ 64) }) st1
    (st2, some p)

/-- The per-page body of the deallocation loop
(GhostMemoryManager.cpp:473-530): decrement the refcount (size_t arithmetic),
and on reaching zero remove the page from every structure and `munmap` it. -/
def deallocPage (st : MState) (q : Nat) : MState :=
  match alookup st.page_ref_counts q with
  | none => st
  | some cnt =>
    let cnt' := (cnt + (2 ^ 64 - 1)) % 2 ^ 64
    if cnt' = 0 then
      { st with
          page_ref_counts := aerase st.page_ref_counts q,
          active_ram_pages := st.active_ram_pages.filter (fun x => !(x == q)),
          backing_store := aerase st.backing_store q,
          disk_page_locations := aerase st.disk_page_locations q,
          mem := aerase st.mem q }
    else { st with page_ref_counts := aset st.page_ref_counts q cnt' }

/-- Method `GhostMemoryManager::DeallocateGhost` (GhostMemoryManager.cpp:439-531).
Address `0` is the null pointer.  The `size` argument is accepted but, like
in the source, never read: the span comes from the stored metadata. -/
def DeallocateGhost (st : MState) (p : Nat) (size : Nat) : MState :=
  if p = 0 then st
  else
    match alookup st.allocation_metadata p with
    | none => st
    | some info =>
      let aligned := ((info.size + PAGE_SIZE - 1) / PAGE_SIZE) * PAGE_SIZE
      let num := aligned / PAGE_SIZE
      let st1 := { st with
        allocation_metadata := aerase st.allocation_metadata p }
      (List.range num).foldl
        (fun acc i => deallocPage acc (p + i * PAGE_SIZE)) st1

/-- Page-aligned base of a faulting address:
`fault & ~(PAGE_SIZE - 1)` (GhostMemoryManager.cpp:733). -/
def pageOf (a : Nat) : Nat := a / PAGE_SIZE * PAGE_SIZE

/-- The managed-block scan of the fault handler
(GhostMemoryManager.cpp:725-731). -/
def findBlock (blocks : List (Nat × Nat)) (a : Nat) : Option (Nat × Nat) :=
  blocks.find? (fun b => decide (b.1 ≤ a) && decide (a < b.1 + b.2))

/-- The restore step of the fault handler (GhostMemoryManager.cpp:742-791):
after the page is committed, its contents come from the disk store (kept),
the in-memory store (consumed), or are zeroed on first touch. -/
def restorePage (c : Codec) (st : MState) (p : Nat) : MState :=
  if st.config.use_disk_backing then
    match alookup st.disk_page_locations p with
    | some (off, sz) =>
      if st.config.compress_before_disk then
        match ReadFromDisk st off sz with
        | some data =>
            { st with mem := aset st.mem p (c.decompress data PAGE_SIZE) }
        | none =>
            { st with mem := aset st.mem p (List.replicate PAGE_SIZE 0) }
      else
        match ReadFromDisk st off PAGE_SIZE with
        | some data => { st with mem := aset st.mem p data }
        | none =>
            { st with mem := aset st.mem p (List.replicate PAGE_SIZE 0) }
    | none => { st with mem := aset st.mem p (List.replicate PAGE_SIZE 0) }
  else
    match alookup st.backing_store p with
    | some data =>
        { st with
            mem := aset st.mem p (c.decompress data PAGE_SIZE),
            backing_store := aerase st.backing_store p }
    | none => { st with mem := aset st.mem p (List.replicate PAGE_SIZE 0) }

/-- Method `GhostMemoryManager::SignalHandler` (GhostMemoryManager.cpp:711-805):
resolve the fault, make room (protecting the faulting page), commit, restore,
mark MRU.  The boolean is `true` when the fault was handled and `false` when
the handler re-raises (`not-ours`). -/
def SignalHandler (c : Codec) (wo : Bool) (st : MState) (fault : Nat) :
    MState × Bool :=
  match findBlock st.managed_blocks fault with
  | none => (st, false)
  | some _ =>
    let p := pageOf fault
    let st1 := EvictOldestPage c wo st p
    let st2 := restorePage c st1 p
    (MarkPageAsActive st2 p, true)

/-! ### Association-list lemmas -/

theorem alookup_cons {α : Type} (e : Nat × α) (t : List (Nat × α)) (j : Nat) :
    alookup (e :: t) j = if e.1 = j then some e.2 else alookup t j := by
  by_cases h : e.1 = j
  · simp [alookup, List.find?_cons_of_pos, h]
  · simp only [alookup, if_neg h]
    rw [List.find?_cons_of_neg]
    simp [h]

theorem aerase_cons {α : Type} (e : Nat × α) (t : List (Nat × α)) (k : Nat) :
    aerase (e :: t) k = if e.1 = k then aerase t k else e :: aerase t k := by
  by_cases h : e.1 = k <;> simp [aerase, List.filter_cons, h]

theorem alookup_aerase_self {α : Type} (m : List (Nat × α)) (k : Nat) :
    alookup (aerase m k) k = none := by
  induction m with
  | nil => rfl
  | cons e t ih =>
    rw [aerase_cons]
    by_cases h : e.1 = k
    · rw [if_pos h]; exact ih
    · rw [if_neg h, alookup_cons, if_neg h]; exact ih

theorem alookup_aerase_ne {α : Type} (m : List (Nat × α)) {k j : Nat}
    (h : j ≠ k) : alookup (aerase m k) j = alookup m j := by
  induction m with
  | nil => rfl
  | cons e t ih =>
    rw [aerase_cons, alookup_cons]
    by_cases he : e.1 = k
    · rw [if_pos he, if_neg (by omega), ih]
    · rw [if_neg he, alookup_cons, ih]

theorem alookup_aset_self {α : Type} (m : List (Nat × α)) (k : Nat) (v : α) :
    alookup (aset m k v) k = some v := by
  rw [aset, alookup_cons, if_pos rfl]

theorem alookup_aset_ne {α : Type} (m : List (Nat × α)) {k j : Nat} (v : α)
    (h : j ≠ k) : alookup (aset m k v) j = alookup m j := by
  rw [aset, alookup_cons, if_neg (by omega), alookup_aerase_ne m h]

/-! ### C8 — configuration defaults -/

/-- Claim C8 counterexample: the claim states the default disk file path is
"ghost.swap", but the source default (`GhostMemoryManager.h:119`) is
"ghostmem.swap". -/
theorem C8_default_path_cex :
    ¬ (({} : GhostConfig).disk_file_path = "ghost.swap") := by
  decide

/-- State `setMaxPages st n` is `st` with `config_.max_memory_pages = n`. -/
def setMaxPages (st : MState) (n : Nat) : MState :=
  { st with config := { st.config with max_memory_pages := n } }

theorem getPage_setMax (st : MState) (n p : Nat) :
    getPage (setMaxPages st n) p = getPage st p := rfl

theorem FreezePage_setMax (c : Codec) (wo : Bool) (st : MState) (p n : Nat) :
    FreezePage c wo (setMaxPages st n) p
      = setMaxPages (FreezePage c wo st p) n := by
  unfold FreezePage WriteToDisk decommitPage setMaxPages getPage
  cases wo <;>
    by_cases hd : st.config.use_disk_backing <;>
      by_cases hc : st.config.compress_before_disk <;>
        simp [hd, hc] <;> split <;>
          simp_all [MState.mk.injEq, GhostConfig.mk.injEq]

theorem processVictim_setMax (c : Codec) (wo : Bool) (st : MState)
    (v n : Nat) :
    processVictim c wo (setMaxPages st n) v
      = setMaxPages (processVictim c wo st v) n := by
  unfold processVictim
  have href : (setMaxPages st n).page_ref_counts = st.page_ref_counts := rfl
  rw [href]
  cases alookup st.page_ref_counts v with
  | none => rfl
  | some m =>
    by_cases hm : m = 0
    · simp only [hm, if_pos rfl]; rfl
    · simp only [if_neg hm]
      exact FreezePage_setMax c wo st v n

theorem evictLoop_max_zero (c : Codec) (wo : Bool) :
    ∀ (fuel : Nat) (st : MState) (ignore : Nat),
      evictLoop c wo fuel (setMaxPages st 0) ignore
        = setMaxPages
            (evictLoop c wo fuel (setMaxPages st MAX_PHYSICAL_PAGES) ignore)
            0 := by
  intro fuel
  induction fuel with
  | zero => intro st ignore; rfl
  | succ fuel ih =>
    intro st ignore
    have hmax : effectiveMax (setMaxPages st 0).config
        = effectiveMax (setMaxPages st MAX_PHYSICAL_PAGES).config := by
      simp [setMaxPages, effectiveMax, MAX_PHYSICAL_PAGES]
    have hact : (setMaxPages st 0).active_ram_pages
        = (setMaxPages st MAX_PHYSICAL_PAGES).active_ram_pages := rfl
    unfold evictLoop
    rw [hmax, hact]
    by_cases hc : effectiveMax (setMaxPages st MAX_PHYSICAL_PAGES).config
        ≤ (setMaxPages st MAX_PHYSICAL_PAGES).active_ram_pages.length
    · rw [if_pos hc, if_pos hc]
      cases hp : pickVictim
          (setMaxPages st MAX_PHYSICAL_PAGES).active_ram_pages ignore with
      | none => rfl
      | some vl =>
        obtain ⟨v, l'⟩ := vl
        show evictLoop c wo fuel
            (processVictim c wo
              (setMaxPages { st with active_ram_pages := l' } 0) v) ignore
          = setMaxPages
              (evictLoop c wo fuel
                (processVictim c wo
                  (setMaxPages { st with active_ram_pages := l' }
                    MAX_PHYSICAL_PAGES) v) ignore) 0
        rw [processVictim_setMax, processVictim_setMax]
        exact ih (processVictim c wo { st with active_ram_pages := l' } v)
          ignore
    · rw [if_neg hc, if_neg hc]; rfl

/-- C8 (amended): the default disk file path is "ghostmem.swap" (not
"ghost.swap"); the default page limit field is 0 and the default constant is
5; a configured value of 0 makes the effective limit the default constant,
and eviction with `max_memory_pages = 0` behaves identically to eviction
with `max_memory_pages = 5`. -/
theorem C8_defaults_amended :
    ({} : GhostConfig).disk_file_path = "ghostmem.swap"
    ∧ ({} : GhostConfig).max_memory_pages = 0
    ∧ MAX_PHYSICAL_PAGES = 5
    ∧ (∀ cfg : GhostConfig, cfg.max_memory_pages = 0 →
        effectiveMax cfg = MAX_PHYSICAL_PAGES)
    ∧ (∀ (c : Codec) (wo : Bool) (st : MState) (ignore : Nat),
        EvictOldestPage c wo (setMaxPages st 0) ignore
          = setMaxPages
              (EvictOldestPage c wo (setMaxPages st MAX_PHYSICAL_PAGES)
                ignore) 0) := by
  refine ⟨rfl, rfl, rfl, ?_, ?_⟩
  · intro cfg h
    unfold effectiveMax
    rw [h]
    simp
  · intro c wo st ignore
    exact evictLoop_max_zero c wo st.active_ram_pages.length st ignore

/-- C8 witness: the amended statement instantiated at the default
configuration. -/
theorem C8_defaults_amended_witness :
    ({} : GhostConfig).max_memory_pages = 0
    ∧ effectiveMax {} = MAX_PHYSICAL_PAGES :=
  ⟨rfl, C8_defaults_amended.2.2.2.1 {} rfl⟩

/-! ### C10 — allocation failure is atomic -/

/-- C10: when the OS refuses the reservation, `AllocateGhost` returns null
and leaves the managed-blocks map, allocation metadata, page refcounts, the
LRU list and both backing stores exactly as they were. -/
theorem C10_allocate_failure_atomic (st : MState) (size : Nat) :
    (AllocateGhost st size none).2 = none
    ∧ (AllocateGhost st size none).1.managed_blocks = st.managed_blocks
    ∧ (AllocateGhost st size none).1.allocation_metadata
        = st.allocation_metadata
    ∧ (AllocateGhost st size none).1.page_ref_counts = st.page_ref_counts
    ∧ (AllocateGhost st size none).1.active_ram_pages = st.active_ram_pages
    ∧ (AllocateGhost st size none).1.backing_store = st.backing_store
    ∧ (AllocateGhost st size none).1.disk_page_locations
        = st.disk_page_locations := by
  unfold AllocateGhost
  by_cases h : st.lib_meta_init <;> simp [h]

/-! ### C7 / C9 — deallocation -/

theorem deallocPage_meta (st : MState) (q : Nat) :
    (deallocPage st q).allocation_metadata = st.allocation_metadata := by
  unfold deallocPage
  cases alookup st.page_ref_counts q with
  | none => rfl
  | some cnt =>
    dsimp only
    split <;> rfl

theorem foldl_dealloc_meta (p : Nat) :
    ∀ (l : List Nat) (st : MState),
      ((l.foldl (fun acc i => deallocPage acc (p + i * PAGE_SIZE))
          st).allocation_metadata)
        = st.allocation_metadata := by
  intro l
  induction l with
  | nil => intro st; rfl
  | cons a t ih =>
    intro st
    rw [List.foldl_cons, ih, deallocPage_meta]

/-- C7: deallocating the null pointer is a no-op, deallocating an untracked
pointer changes no state, and a second deallocation of the same pointer
leaves the state exactly as after the first. -/
theorem C7_deallocate_idempotent (st : MState) (p s : Nat) :
    DeallocateGhost st 0 s = st
    ∧ (alookup st.allocation_metadata p = none → DeallocateGhost st p s = st)
    ∧ DeallocateGhost (DeallocateGhost st p s) p s
        = DeallocateGhost st p s := by
  have huntracked : ∀ st' : MState,
      alookup st'.allocation_metadata p = none →
      DeallocateGhost st' p s = st' := by
    intro st' h
    unfold DeallocateGhost
    by_cases hp : p = 0
    · rw [if_pos hp]
    · rw [if_neg hp, h]
  have h0 : DeallocateGhost st 0 s = st := by
    unfold DeallocateGhost
    rw [if_pos rfl]
  refine ⟨h0, huntracked st, ?_⟩
  by_cases hp : p = 0
  · subst hp
    rw [h0, h0]
  · cases hm : alookup st.allocation_metadata p with
    | none =>
      have e := huntracked st hm
      rw [e, e]
    | some info =>
      apply huntracked
      show alookup (DeallocateGhost st p s).allocation_metadata p = none
      unfold DeallocateGhost
      rw [if_neg hp, hm]
      show alookup ((List.range _).foldl
          (fun acc i => deallocPage acc (p + i * PAGE_SIZE))
          { st with
            allocation_metadata :=
              aerase st.allocation_metadata p }).allocation_metadata p = none
      rw [foldl_dealloc_meta]
      exact alookup_aerase_self _ _

def c7State : MState :=
  { allocation_metadata := [(4096, ⟨4096, 0, 100⟩)],
    page_ref_counts := [(4096, 1)],
    active_ram_pages := [4096],
    mem := [(4096, List.replicate PAGE_SIZE 3)] }

/-- C7 witness: the idempotence theorem applied at a concrete state. -/
theorem C7_deallocate_idempotent_witness :
    alookup c7State.allocation_metadata 8192 = none
    ∧ DeallocateGhost c7State 8192 64 = c7State
    ∧ DeallocateGhost (DeallocateGhost c7State 4096 100) 4096 100
        = DeallocateGhost c7State 4096 100 :=
  ⟨rfl, (C7_deallocate_idempotent c7State 8192 64).2.1 rfl,
    (C7_deallocate_idempotent c7State 4096 100).2.2⟩

theorem deallocPage_ref_frame (st : MState) {q j : Nat} (h : j ≠ q) :
    alookup (deallocPage st q).page_ref_counts j
      = alookup st.page_ref_counts j := by
  unfold deallocPage
  cases hc : alookup st.page_ref_counts q with
  | none => rfl
  | some cnt =>
    by_cases hz : (cnt + (2 ^ 64 - 1)) % 2 ^ 64 = 0
    · simp only [hz, if_pos rfl]
      exact alookup_aerase_ne _ h
    · simp only [hz, if_neg hz]
      exact alookup_aset_ne _ _ h

theorem foldl_dealloc_ref_frame (p j : Nat) :
    ∀ (l : List Nat) (st : MState),
      (∀ i ∈ l, j ≠ p + i * PAGE_SIZE) →
      alookup ((l.foldl (fun acc i => deallocPage acc (p + i * PAGE_SIZE))
          st)).page_ref_counts j
        = alookup st.page_ref_counts j := by
  intro l
  induction l with
  | nil => intro st _; rfl
  | cons a t ih =>
    intro st hmem
    rw [List.foldl_cons, ih _ (fun i hi => hmem i (List.mem_cons_of_mem a hi)),
      deallocPage_ref_frame _ (hmem a (List.mem_cons_self a t))]

/-- C9: the `size` argument of `DeallocateGhost` is ignored — any two sizes
produce the same post-state — and the pages whose refcounts are touched are
computed from the size recorded in the allocation metadata, rounded up to a
page multiple: the refcount of every page outside that span is unchanged. -/
theorem C9_deallocate_size_ignored (st : MState) (p s1 s2 : Nat)
    (info : AllocationInfo)
    (h : alookup st.allocation_metadata p = some info) :
    DeallocateGhost st p s1 = DeallocateGhost st p s2
    ∧ (∀ j,
        (∀ i, i < (info.size + PAGE_SIZE - 1) / PAGE_SIZE →
          j ≠ p + i * PAGE_SIZE) →
        alookup (DeallocateGhost st p s1).page_ref_counts j
          = alookup st.page_ref_counts j) := by
  constructor
  · rfl
  · intro j hj
    by_cases hp : p = 0
    · unfold DeallocateGhost
      rw [if_pos hp]
    · unfold DeallocateGhost
      rw [if_neg hp, h]
      show alookup ((List.range
          (((info.size + PAGE_SIZE - 1) / PAGE_SIZE) * PAGE_SIZE
            / PAGE_SIZE)).foldl
          (fun acc i => deallocPage acc (p + i * PAGE_SIZE))
          { st with
            allocation_metadata :=
              aerase st.allocation_metadata p }).page_ref_counts j
        = alookup st.page_ref_counts j
      rw [Nat.mul_div_cancel _ (show 0 < PAGE_SIZE by norm_num [PAGE_SIZE])]
      rw [foldl_dealloc_ref_frame p j _ _
        (fun i hi => hj i (List.mem_range.mp hi))]

/-- C9 witness: size-irrelevance and the refcount frame condition at a
concrete state (a 100-byte allocation spans one page; page 12288 is outside
the span). -/
theorem C9_deallocate_size_ignored_witness :
    alookup c7State.allocation_metadata 4096 = some ⟨4096, 0, 100⟩
    ∧ DeallocateGhost c7State 4096 1 = DeallocateGhost c7State 4096 999
    ∧ alookup (DeallocateGhost c7State 4096 1).page_ref_counts 12288
        = alookup c7State.page_ref_counts 12288 :=
  ⟨rfl,
    (C9_deallocate_size_ignored c7State 4096 1 999 ⟨4096, 0, 100⟩ rfl).1,
    (C9_deallocate_size_ignored c7State 4096 1 999 ⟨4096, 0, 100⟩ rfl).2
      12288 (by decide)⟩

/-! ### C5 — zombie pages -/

/-- C5: a victim whose refcount is absent or zero is reclaimed without
compression: the state change is exactly the zombie cleanup (refcount entry
removed, both backing-store entries removed, memory released), the freeze
path is not invoked, and afterwards no backing-store or disk-index entry
exists for the page. -/
theorem C5_zombie_reclaim (c : Codec) (wo : Bool) (st : MState) (v : Nat)
    (h : alookup st.page_ref_counts v = none
      ∨ alookup st.page_ref_counts v = some 0) :
    processVictim c wo st v = zombieFree st v
    ∧ alookup (processVictim c wo st v).page_ref_counts v = none
    ∧ alookup (processVictim c wo st v).backing_store v = none
    ∧ alookup (processVictim c wo st v).disk_page_locations v = none
    ∧ alookup (processVictim c wo st v).mem v = none := by
  have h1 : processVictim c wo st v = zombieFree st v := by
    unfold processVictim
    rcases h with h | h <;> rw [h] <;> rfl
  rw [h1]
  exact ⟨rfl, alookup_aerase_self _ _, alookup_aerase_self _ _,
    alookup_aerase_self _ _, alookup_aerase_self _ _⟩

/-- Codec `idCodec`: a trivially lawful stand-in for concrete witnesses. -/
def idCodec : Codec := ⟨fun l => l, fun l _ => l⟩

def c5State : MState :=
  { page_ref_counts := [(4096, 0)],
    backing_store := [(4096, [1])],
    disk_page_locations := [(4096, (0, 1))],
    mem := [(4096, List.replicate PAGE_SIZE 9)] }

/-- C5 witness: the zombie-reclaim theorem at a concrete state whose victim
has refcount zero. -/
theorem C5_zombie_reclaim_witness :
    (alookup c5State.page_ref_counts 4096 = none
      ∨ alookup c5State.page_ref_counts 4096 = some 0)
    ∧ processVictim idCodec true c5State 4096 = zombieFree c5State 4096
    ∧ alookup (processVictim idCodec true c5State 4096).backing_store 4096
        = none
    ∧ alookup (processVictim idCodec true c5State 4096).disk_page_locations
        4096 = none :=
  ⟨Or.inr rfl,
    (C5_zombie_reclaim idCodec true c5State 4096 (Or.inr rfl)).1,
    (C5_zombie_reclaim idCodec true c5State 4096 (Or.inr rfl)).2.2.1,
    (C5_zombie_reclaim idCodec true c5State 4096 (Or.inr rfl)).2.2.2.1⟩

/-! ### C1 — encryption is absent from the freeze path -/

/-- A constant 4096-byte plaintext page. -/
def plainPage : List Nat := List.replicate PAGE_SIZE 65

def c1State : MState :=
  { config := { use_disk_backing := true, compress_before_disk := false,
                encrypt_disk_pages := true },
    managed_blocks := [(4096, 4096)],
    page_ref_counts := [(4096, 1)],
    active_ram_pages := [4096],
    mem := [(4096, plainPage)] }

/-- C1 refutation: with `use_disk_backing = true` and
`encrypt_disk_pages = true`, freezing a page writes its bytes to the swap
file verbatim — the swap file is exactly the plaintext page.  The source's
`FreezePage` never consults `encrypt_disk_pages` and never calls
`ChaCha20Crypt` (which is declared in the header but defined nowhere in the
repository). -/
theorem C1_plaintext_in_swap_file :
    c1State.config.use_disk_backing = true
    ∧ c1State.config.encrypt_disk_pages = true
    ∧ (FreezePage idCodec true c1State 4096).disk_file = plainPage
    ∧ alookup (FreezePage idCodec true c1State 4096).disk_page_locations
        4096 = some (0, PAGE_SIZE)
    ∧ alookup (FreezePage idCodec true c1State 4096).mem 4096 = none := by
  refine ⟨rfl, rfl, ?_, ?_, ?_⟩
  · show (FreezePage idCodec true c1State 4096).disk_file = plainPage
    simp [FreezePage, c1State, WriteToDisk, writeBytesAt, getPage,
      alookup_cons, decommitPage]
  · exact alookup_aset_self _ _ _
  · exact alookup_aerase_self _ _

/-! ### C3 — codec failure during eviction -/

/-- A codec whose compressor always fails (returns zero bytes), modelling
`LZ4_compress_default` returning `<= 0`. -/
def failCodec : Codec := ⟨fun _ => [], fun _ _ => []⟩

def c3State : MState :=
  { config := { use_disk_backing := true, compress_before_disk := true,
                max_memory_pages := 1 },
    managed_blocks := [(4096, 8192)],
    page_ref_counts := [(4096, 1), (8192, 1)],
    active_ram_pages := [4096, 8192],
    mem := [(4096, List.replicate PAGE_SIZE 1),
            (8192, List.replicate PAGE_SIZE 2)] }

/-- C3 refutation: in disk-backed compressed mode, when the compressor fails
on the victim the page is NOT left resident: it has already been removed
from the LRU list, `FreezePage` still decommits it (falling through past
the skipped store), no disk-index or backing-store entry is created, and
the loop continues and evicts the next page instead of exiting — here both
resident pages are lost. -/
theorem C3_compressor_failure_not_resident :
    (EvictOldestPage failCodec true c3State 0).active_ram_pages = []
    ∧ alookup (EvictOldestPage failCodec true c3State 0).mem 8192 = none
    ∧ alookup (EvictOldestPage failCodec true c3State 0).mem 4096 = none
    ∧ (EvictOldestPage failCodec true c3State 0).disk_page_locations = []
    ∧ (EvictOldestPage failCodec true c3State 0).backing_store = []
    ∧ (EvictOldestPage failCodec true c3State 0).disk_file = [] :=
  ⟨rfl, rfl, rfl, rfl, rfl, rfl⟩

/-! ### C4 — capacity bound after a fault -/

theorem effectiveMax_pos (cfg : GhostConfig) : 1 ≤ effectiveMax cfg := by
  unfold effectiveMax MAX_PHYSICAL_PAGES
  split <;> omega

theorem FreezePage_config (c : Codec) (wo : Bool) (st : MState) (p : Nat) :
    (FreezePage c wo st p).config = st.config := by
  unfold FreezePage WriteToDisk decommitPage
  by_cases hd : st.config.use_disk_backing <;>
    by_cases hc : st.config.compress_before_disk <;>
      cases wo <;> simp [hd, hc] <;> split <;> simp

theorem processVictim_config (c : Codec) (wo : Bool) (st : MState) (v : Nat) :
    (processVictim c wo st v).config = st.config := by
  unfold processVictim
  cases alookup st.page_ref_counts v with
  | none => rfl
  | some n =>
    by_cases hn : n = 0
    · simp [hn, zombieFree]
    · simp [hn, FreezePage_config]

theorem restorePage_active (c : Codec) (st : MState) (p : Nat) :
    (restorePage c st p).active_ram_pages = st.active_ram_pages := by
  unfold restorePage
  by_cases hd : st.config.use_disk_backing
  · rw [if_pos hd]
    cases alookup st.disk_page_locations p with
    | none => rfl
    | some os =>
      obtain ⟨off, sz⟩ := os
      dsimp only
      by_cases hc : st.config.compress_before_disk
      · rw [if_pos hc]
        cases ReadFromDisk st off sz <;> rfl
      · rw [if_neg hc]
        cases ReadFromDisk st off PAGE_SIZE <;> rfl
  · rw [if_neg hd]
    cases alookup st.backing_store p <;> rfl

theorem getLast?_mem_of_eq {l : List Nat} {a : Nat}
    (h : l.getLast? = some a) : a ∈ l := by
  obtain ⟨hne, rfl⟩ := List.mem_getLast?_eq_getLast (Option.mem_def.mpr h)
  exact List.getLast_mem hne

/-- A `pickVictim` break with a nonempty list means the protected page is
the only resident page. -/
theorem pickVictim_none (l : List Nat) (ignore : Nat) (hne : l ≠ [])
    (h : pickVictim l ignore = none) : l = [ignore] := by
  unfold pickVictim at h
  cases hl : l.getLast? with
  | none => exact absurd (List.getLast?_eq_none_iff.mp hl) hne
  | some v =>
    rw [hl] at h
    by_cases hv : v = ignore
    · simp only [hv, if_pos rfl] at h
      by_cases h2 : l.length < 2
      · have h1 : l.length = 1 := by
          cases hll : l.length with
          | zero =>
            exact absurd (List.length_eq_zero.mp hll) hne
          | succ n => omega
        obtain ⟨a, rfl⟩ := List.length_eq_one.mp h1
        have ha : a = v := by
          simpa using hl
        rw [ha, hv]
      · rw [if_neg h2] at h
        cases hl2 : l.dropLast.getLast? with
        | none =>
          have hdne : l.dropLast ≠ [] := by
            intro he
            have hle := congrArg List.length he
            rw [List.length_dropLast] at hle
            simp only [List.length_nil] at hle
            omega
          exact absurd (List.getLast?_eq_none_iff.mp hl2) hdne
        | some v2 => rw [hl2] at h; simp at h
    · simp only [if_neg hv] at h
      exact Option.noConfusion h

/-- After the eviction loop, either the resident count is strictly below the
limit, or the protected page is the only resident page. -/
theorem evictLoop_post (c : Codec) (wo : Bool) :
    ∀ (fuel : Nat) (st : MState) (ignore : Nat),
      st.active_ram_pages.length ≤ fuel →
      (evictLoop c wo fuel st ignore).active_ram_pages.length
          < effectiveMax st.config
      ∨ (evictLoop c wo fuel st ignore).active_ram_pages = [ignore] := by
  intro fuel
  induction fuel with
  | zero =>
    intro st ignore h
    left
    show st.active_ram_pages.length < effectiveMax st.config
    have := effectiveMax_pos st.config
    omega
  | succ fuel ih =>
    intro st ignore h
    unfold evictLoop
    by_cases hc : effectiveMax st.config ≤ st.active_ram_pages.length
    · rw [if_pos hc]
      cases hp : pickVictim st.active_ram_pages ignore with
      | none =>
        right
        have hne : st.active_ram_pages ≠ [] := by
          intro he
          rw [he] at hc
          have := effectiveMax_pos st.config
          simp at hc
          omega
        exact pickVictim_none _ _ hne hp
      | some vl =>
        obtain ⟨v, l'⟩ := vl
        have hlen := pickVictim_length hp
        have hfuel : (processVictim c wo { st with active_ram_pages := l' }
            v).active_ram_pages.length ≤ fuel := by
          rw [processVictim_active]
          show l'.length ≤ fuel
          omega
        have hres := ih (processVictim c wo
          { st with active_ram_pages := l' } v) ignore hfuel
        rwa [processVictim_config] at hres
    · rw [if_neg hc]
      left
      omega

/-- C4: after a handled fault, the resident (LRU) list length is at most the
effective maximum (config value if non-zero, else the default constant).
The emergency brake never actually produces an overshoot at the observation
point: it only fires when the faulting page is the sole resident page, and
that page is then re-marked MRU without growing the list. -/
theorem C4_capacity_bound (c : Codec) (wo : Bool) (st : MState) (fault : Nat)
    (h : (SignalHandler c wo st fault).2 = true) :
    (SignalHandler c wo st fault).1.active_ram_pages.length
      ≤ effectiveMax st.config := by
  unfold SignalHandler at h ⊢
  cases hb : findBlock st.managed_blocks fault with
  | none => rw [hb] at h; simp at h
  | some b =>
    dsimp only
    have hpost := evictLoop_post c wo st.active_ram_pages.length st
      (pageOf fault) (Nat.le_refl _)
    rcases hpost with hlt | heq
    · show ((MarkPageAsActive (restorePage c
          (EvictOldestPage c wo st (pageOf fault)) (pageOf fault))
          (pageOf fault)).active_ram_pages).length ≤ effectiveMax st.config
      unfold MarkPageAsActive
      rw [List.length_cons, restorePage_active]
      have hfil := List.length_filter_le
        (fun q => !(q == pageOf fault))
        (EvictOldestPage c wo st (pageOf fault)).active_ram_pages
      show (List.filter _ _).length + 1 ≤ _
      exact Nat.succ_le_of_lt (Nat.lt_of_le_of_lt hfil hlt)
    · show ((MarkPageAsActive (restorePage c
          (EvictOldestPage c wo st (pageOf fault)) (pageOf fault))
          (pageOf fault)).active_ram_pages).length ≤ effectiveMax st.config
      unfold MarkPageAsActive
      rw [List.length_cons, restorePage_active]
      show (List.filter (fun q => !(q == pageOf fault))
          (evictLoop c wo st.active_ram_pages.length st
            (pageOf fault)).active_ram_pages).length + 1
        ≤ effectiveMax st.config
      rw [heq]
      have hz : (List.filter (fun q => !(q == pageOf fault))
          [pageOf fault]).length = 0 := by
        simp
      rw [hz]
      exact effectiveMax_pos st.config

def c4State : MState :=
  { managed_blocks := [(4096, 4096)],
    backing_store := [(4096, [9])],
    page_ref_counts := [(4096, 1)] }

/-- C4 witness: the capacity bound applied to a concrete handled fault. -/
theorem C4_capacity_bound_witness :
    (SignalHandler idCodec true c4State 4100).2 = true
    ∧ (SignalHandler idCodec true c4State 4100).1.active_ram_pages.length
        ≤ effectiveMax c4State.config :=
  ⟨rfl, C4_capacity_bound idCodec true c4State 4100 rfl⟩

/-! ### C6 — the protected page is never the victim -/

theorem pickVictim_ne_ignore {l : List Nat} {ig v : Nat} {l' : List Nat}
    (hnd : l.Nodup) (h : pickVictim l ig = some (v, l')) : v ≠ ig := by
  unfold pickVictim at h
  cases hl : l.getLast? with
  | none => rw [hl] at h; exact Option.noConfusion h
  | some w =>
    rw [hl] at h
    by_cases hw : w = ig
    · simp only [hw, if_pos rfl] at h
      by_cases h2 : l.length < 2
      · rw [if_pos h2] at h; exact Option.noConfusion h
      · rw [if_neg h2] at h
        cases hl2 : l.dropLast.getLast? with
        | none => rw [hl2] at h; exact Option.noConfusion h
        | some v2 =>
          rw [hl2] at h
          have hmem : v2 ∈ l.dropLast := getLast?_mem_of_eq hl2
          have hfull : l.dropLast ++ [w] = l :=
            List.dropLast_append_getLast? w (Option.mem_def.mpr hl)
          have hnotin : w ∉ l.dropLast := by
            rw [← hfull] at hnd
            intro hin
            exact (List.disjoint_of_nodup_append hnd) hin
              (List.mem_singleton.mpr rfl)
          cases h
          intro he
          rw [he] at hmem
          rw [hw] at hnotin
          exact hnotin hmem
    · simp only [if_neg hw] at h
      cases h
      exact hw

theorem pickVictim_mem {l : List Nat} {ig v : Nat} {l' : List Nat}
    (h : pickVictim l ig = some (v, l')) (hin : ig ∈ l) : ig ∈ l' := by
  unfold pickVictim at h
  cases hl : l.getLast? with
  | none => rw [hl] at h; exact Option.noConfusion h
  | some w =>
    rw [hl] at h
    by_cases hw : w = ig
    · simp only [hw, if_pos rfl] at h
      by_cases h2 : l.length < 2
      · rw [if_pos h2] at h; exact Option.noConfusion h
      · rw [if_neg h2] at h
        cases hl2 : l.dropLast.getLast? with
        | none => rw [hl2] at h; exact Option.noConfusion h
        | some v2 =>
          rw [hl2] at h
          cases h
          exact List.mem_append_right _ (List.mem_singleton.mpr rfl)
    · simp only [if_neg hw] at h
      have hfull : l.dropLast ++ [w] = l :=
        List.dropLast_append_getLast? w (Option.mem_def.mpr hl)
      cases h
      rw [← hfull] at hin
      rcases List.mem_append.mp hin with h1 | h1
      · exact h1
      · exact absurd (List.mem_singleton.mp h1).symm hw

theorem pickVictim_sublist {l : List Nat} {ig v : Nat} {l' : List Nat}
    (h : pickVictim l ig = some (v, l')) : l'.Sublist l := by
  unfold pickVictim at h
  cases hl : l.getLast? with
  | none => rw [hl] at h; exact Option.noConfusion h
  | some w =>
    rw [hl] at h
    by_cases hw : w = ig
    · simp only [hw, if_pos rfl] at h
      by_cases h2 : l.length < 2
      · rw [if_pos h2] at h; exact Option.noConfusion h
      · rw [if_neg h2] at h
        cases hl2 : l.dropLast.getLast? with
        | none => rw [hl2] at h; exact Option.noConfusion h
        | some v2 =>
          rw [hl2] at h
          have hfull : l.dropLast ++ [w] = l :=
            List.dropLast_append_getLast? w (Option.mem_def.mpr hl)
          rw [hw] at hfull
          cases h
          conv_rhs => rw [← hfull]
          exact (List.dropLast_sublist _).append (List.Sublist.refl [ig])
    · simp only [if_neg hw] at h
      cases h
      exact List.dropLast_sublist l

theorem FreezePage_mem_other (c : Codec) (wo : Bool) (st : MState)
    {q p : Nat} (h : p ≠ q) :
    alookup (FreezePage c wo st q).mem p = alookup st.mem p := by
  have hfalse : ∀ d, WriteToDisk false st d = none := fun _ => rfl
  have htrue : ∀ d, WriteToDisk true st d
      = some ({ st with
          disk_file := writeBytesAt st.disk_file st.disk_next_offset d,
          disk_next_offset := st.disk_next_offset + d.length },
        st.disk_next_offset) := fun _ => rfl
  unfold FreezePage decommitPage
  cases wo
  · simp only [hfalse]
    repeat' split
    all_goals first
      | rfl
      | exact alookup_aerase_ne _ h
  · simp only [htrue]
    repeat' split
    all_goals first
      | rfl
      | exact alookup_aerase_ne _ h

theorem processVictim_mem_other (c : Codec) (wo : Bool) (st : MState)
    {v p : Nat} (h : p ≠ v) :
    alookup (processVictim c wo st v).mem p = alookup st.mem p := by
  unfold processVictim
  cases alookup st.page_ref_counts v with
  | none => exact alookup_aerase_ne _ h
  | some n =>
    by_cases hn : n = 0
    · simp only [hn, if_pos rfl]
      exact alookup_aerase_ne _ h
    · simp only [if_neg hn]
      exact FreezePage_mem_other c wo st h

theorem evictLoop_protected (c : Codec) (wo : Bool) :
    ∀ (fuel : Nat) (st : MState) (p : Nat),
      st.active_ram_pages.Nodup →
      alookup (evictLoop c wo fuel st p).mem p = alookup st.mem p
      ∧ (p ∈ st.active_ram_pages →
          p ∈ (evictLoop c wo fuel st p).active_ram_pages) := by
  intro fuel
  induction fuel with
  | zero => intro st p _; exact ⟨rfl, fun hp => hp⟩
  | succ fuel ih =>
    intro st p hnd
    unfold evictLoop
    by_cases hc : effectiveMax st.config ≤ st.active_ram_pages.length
    · rw [if_pos hc]
      cases hp : pickVictim st.active_ram_pages p with
      | none => exact ⟨rfl, fun hin => hin⟩
      | some vl =>
        obtain ⟨v, l'⟩ := vl
        dsimp only
        have hvne : v ≠ p := pickVictim_ne_ignore hnd hp
        have hnd' : l'.Nodup := hnd.sublist (pickVictim_sublist hp)
        have hmem1 : alookup (processVictim c wo
            { st with active_ram_pages := l' } v).mem p = alookup st.mem p :=
          processVictim_mem_other c wo _ (Ne.symm hvne)
        have hact1 : (processVictim c wo
            { st with active_ram_pages := l' } v).active_ram_pages = l' :=
          processVictim_active c wo _ v
        have hrec := ih (processVictim c wo
          { st with active_ram_pages := l' } v) p (by rw [hact1]; exact hnd')
        constructor
        · rw [hrec.1, hmem1]
        · intro hin
          exact hrec.2 (by rw [hact1]; exact pickVictim_mem hp hin)
    · rw [if_neg hc]
      exact ⟨rfl, fun hin => hin⟩

theorem evictLoop_single (c : Codec) (wo : Bool) (fuel : Nat) (st : MState)
    (p : Nat) (h4 : st.active_ram_pages = [p]) :
    evictLoop c wo fuel st p = st := by
  cases fuel with
  | zero => rfl
  | succ n =>
    unfold evictLoop
    by_cases hm : effectiveMax st.config ≤ st.active_ram_pages.length
    · rw [if_pos hm, h4]
      have hpv : pickVictim [p] p = none := by
        unfold pickVictim
        simp
      rw [hpv]
    · rw [if_neg hm]

theorem pickVictim_tail {l : List Nat} {ig v : Nat}
    (hl : l.getLast? = some v) (hv : v ≠ ig) :
    pickVictim l ig = some (v, l.dropLast) := by
  unfold pickVictim
  rw [hl]
  dsimp only
  rw [if_neg hv]

theorem pickVictim_second {l : List Nat} {p : Nat}
    (hl : l.getLast? = some p) (h2 : 2 ≤ l.length) :
    ∃ v2, l.dropLast.getLast? = some v2
      ∧ pickVictim l p = some (v2, l.dropLast.dropLast ++ [p]) := by
  have hdne : l.dropLast ≠ [] := by
    intro he
    have hle := congrArg List.length he
    rw [List.length_dropLast] at hle
    simp only [List.length_nil] at hle
    omega
  cases hl2 : l.dropLast.getLast? with
  | none => exact absurd (List.getLast?_eq_none_iff.mp hl2) hdne
  | some v2 =>
    refine ⟨v2, rfl, ?_⟩
    unfold pickVictim
    rw [hl]
    dsimp only
    rw [if_pos rfl, if_neg (by omega), hl2]

/-- C6: with a duplicate-free resident list, (i) the chosen victim is never
the protected page; (ii) the victim is the LRU tail whenever the tail is not
protected; (iii) when the tail is protected and another page is resident,
the second-oldest page is the victim; (iv) when the protected page is the
only resident page, eviction stops and changes nothing; (v)-(vi) across the
whole eviction loop the protected page's committed contents are untouched
and it stays in the resident list. -/
theorem C6_protected_never_evicted (c : Codec) (wo : Bool) (st : MState)
    (p : Nat) (hnd : st.active_ram_pages.Nodup) :
    (∀ v l', pickVictim st.active_ram_pages p = some (v, l') → v ≠ p)
    ∧ (∀ v, st.active_ram_pages.getLast? = some v → v ≠ p →
        pickVictim st.active_ram_pages p
          = some (v, st.active_ram_pages.dropLast))
    ∧ (st.active_ram_pages.getLast? = some p →
        2 ≤ st.active_ram_pages.length →
        ∃ v2, st.active_ram_pages.dropLast.getLast? = some v2
          ∧ pickVictim st.active_ram_pages p
              = some (v2, st.active_ram_pages.dropLast.dropLast ++ [p]))
    ∧ (st.active_ram_pages = [p] → EvictOldestPage c wo st p = st)
    ∧ alookup (EvictOldestPage c wo st p).mem p = alookup st.mem p
    ∧ (p ∈ st.active_ram_pages →
        p ∈ (EvictOldestPage c wo st p).active_ram_pages) :=
  ⟨fun _ _ h => pickVictim_ne_ignore hnd h,
   fun _ hl hv => pickVictim_tail hl hv,
   fun hl h2 => pickVictim_second hl h2,
   fun h4 => evictLoop_single c wo _ st p h4,
   (evictLoop_protected c wo _ st p hnd).1,
   (evictLoop_protected c wo _ st p hnd).2⟩

def c6State : MState :=
  { active_ram_pages := [4096, 8192],
    page_ref_counts := [(4096, 1), (8192, 1)],
    mem := [(4096, List.replicate PAGE_SIZE 4), (8192, [7])] }

/-- C6 witness: the protected-page theorem at a concrete state whose LRU
tail is the protected page. -/
theorem C6_protected_never_evicted_witness :
    c6State.active_ram_pages.Nodup
    ∧ alookup (EvictOldestPage idCodec true c6State 8192).mem 8192
        = alookup c6State.mem 8192
    ∧ (∃ v2, c6State.active_ram_pages.dropLast.getLast? = some v2
        ∧ pickVictim c6State.active_ram_pages 8192
            = some (v2,
                c6State.active_ram_pages.dropLast.dropLast ++ [8192])) :=
  ⟨by decide,
   (C6_protected_never_evicted idCodec true c6State 8192
     (by decide)).2.2.2.2.1,
   (C6_protected_never_evicted idCodec true c6State 8192
     (by decide)).2.2.1 rfl (by decide)⟩

/-! ### C2 — freeze/restore round-trip -/

/-- The disk-store invariant: the write cursor sits at the end of the swap
file (the file is append-only; `WriteToDisk` writes at the cursor and
advances it by the bytes written). -/
def DiskInv (st : MState) : Prop :=
  st.disk_next_offset = st.disk_file.length

theorem writeBytesAt_at_end (f d : List Nat) :
    writeBytesAt f f.length d = f ++ d := by
  unfold writeBytesAt
  rw [List.take_length, Nat.sub_self,
    List.drop_eq_nil_of_le (by omega)]
  simp

theorem getPage_eq {st : MState} {p : Nat} {B : List Nat}
    (h : alookup st.mem p = some B) : getPage st p = B := by
  unfold getPage
  rw [h]
  rfl

/-- Freezing a sequence of pages (an arbitrary run of later evictions). -/
def freezeList (c : Codec) (wo : Bool) (qs : List Nat) (st : MState) :
    MState :=
  qs.foldl (fun acc q => FreezePage c wo acc q) st

/-- Freezing a page other than `p` preserves the disk invariant, only
appends to the swap file, and leaves `p`'s disk-index and in-memory-store
entries untouched. -/
theorem FreezePage_other (c : Codec) (st : MState) {q p : Nat} (hq : q ≠ p)
    (hd : DiskInv st) :
    DiskInv (FreezePage c true st q)
    ∧ (∃ ext, (FreezePage c true st q).disk_file = st.disk_file ++ ext)
    ∧ alookup (FreezePage c true st q).disk_page_locations p
        = alookup st.disk_page_locations p
    ∧ alookup (FreezePage c true st q).backing_store p
        = alookup st.backing_store p
    ∧ (FreezePage c true st q).config = st.config := by
  have hw : ∀ d : List Nat,
      writeBytesAt st.disk_file st.disk_next_offset d
        = st.disk_file ++ d := by
    intro d
    rw [hd]
    exact writeBytesAt_at_end _ _
  unfold FreezePage decommitPage WriteToDisk
  by_cases hdb : st.config.use_disk_backing
  · rw [if_pos hdb]
    by_cases hcb : st.config.compress_before_disk
    · rw [if_pos hcb]
      dsimp only
      by_cases hlen : 0 < (c.compress (getPage st q)).length
      · rw [if_pos hlen]
        refine ⟨?_, ⟨c.compress (getPage st q), hw _⟩,
          alookup_aset_ne _ _ (Ne.symm hq), rfl, rfl⟩
        show st.disk_next_offset + (c.compress (getPage st q)).length
          = (writeBytesAt st.disk_file st.disk_next_offset
              (c.compress (getPage st q))).length
        rw [hw, List.length_append, hd]
      · rw [if_neg hlen]
        exact ⟨hd, ⟨[], (List.append_nil _).symm⟩, rfl, rfl, rfl⟩
    · rw [if_neg hcb]
      dsimp only
      refine ⟨?_, ⟨getPage st q, hw _⟩,
        alookup_aset_ne _ _ (Ne.symm hq), rfl, rfl⟩
      show st.disk_next_offset + (getPage st q).length
        = (writeBytesAt st.disk_file st.disk_next_offset
            (getPage st q)).length
      rw [hw, List.length_append, hd]
  · rw [if_neg hdb]
    dsimp only
    by_cases hlen : 0 < (c.compress (getPage st q)).length
    · rw [if_pos hlen]
      exact ⟨hd, ⟨[], (List.append_nil _).symm⟩, rfl,
        alookup_aset_ne _ _ (Ne.symm hq), rfl⟩
    · rw [if_neg hlen]
      exact ⟨hd, ⟨[], (List.append_nil _).symm⟩, rfl, rfl, rfl⟩

theorem freezeList_other (c : Codec) (p : Nat) :
    ∀ (qs : List Nat) (st : MState), (∀ q ∈ qs, q ≠ p) → DiskInv st →
      DiskInv (freezeList c true qs st)
      ∧ (∃ ext, (freezeList c true qs st).disk_file = st.disk_file ++ ext)
      ∧ alookup (freezeList c true qs st).disk_page_locations p
          = alookup st.disk_page_locations p
      ∧ alookup (freezeList c true qs st).backing_store p
          = alookup st.backing_store p
      ∧ (freezeList c true qs st).config = st.config := by
  intro qs
  induction qs with
  | nil =>
    intro st _ hd
    exact ⟨hd, ⟨[], (List.append_nil _).symm⟩, rfl, rfl, rfl⟩
  | cons a t ih =>
    intro st hq hd
    have ha : a ≠ p := hq a (List.mem_cons_self a t)
    have h1 := FreezePage_other c st ha hd
    have h2 := ih (FreezePage c true st a)
      (fun x hx => hq x (List.mem_cons_of_mem a hx)) h1.1
    have hfold : freezeList c true (a :: t) st
        = freezeList c true t (FreezePage c true st a) := rfl
    rw [hfold]
    refine ⟨h2.1, ?_, ?_, ?_, ?_⟩
    · obtain ⟨e1, he1⟩ := h1.2.1
      obtain ⟨e2, he2⟩ := h2.2.1
      exact ⟨e1 ++ e2, by rw [he2, he1, List.append_assoc]⟩
    · rw [h2.2.2.1, h1.2.2.1]
    · rw [h2.2.2.2.1, h1.2.2.2.1]
    · rw [h2.2.2.2.2, h1.2.2.2.2]

/-- C2: round-trip.  Freeze a resident page `p` holding the 4096 bytes `B`,
let any number of other pages be frozen afterwards (`qs`, the eviction
cycles between write and read), then restore `p` through the fault
handler's restore step: the page again holds exactly `B`.  Holds in all
three backing modes (in-memory, disk raw, disk compressed), assuming the
codec satisfies the LZ4 round-trip contract and I/O succeeds. -/
theorem C2_round_trip (c : Codec) (st : MState) (p : Nat) (B : List Nat)
    (qs : List Nat) (hlaw : c.lawful) (hB : alookup st.mem p = some B)
    (hlen : B.length = PAGE_SIZE) (hdi : DiskInv st)
    (hqs : ∀ q ∈ qs, q ≠ p) :
    alookup (restorePage c (freezeList c true qs
        (FreezePage c true st p)) p).mem p = some B := by
  have hg : getPage st p = B := getPage_eq hB
  have hcB := hlaw B hlen
  have hwB : ∀ d : List Nat,
      writeBytesAt st.disk_file st.disk_next_offset d
        = st.disk_file ++ d := by
    intro d
    rw [hdi]
    exact writeBytesAt_at_end _ _
  by_cases hdb : st.config.use_disk_backing
  · by_cases hcb : st.config.compress_before_disk
    · -- disk-backed, compressed
      have e1 : FreezePage c true st p
          = { st with
              disk_file := writeBytesAt st.disk_file st.disk_next_offset
                (c.compress B),
              disk_next_offset := st.disk_next_offset
                + (c.compress B).length,
              disk_page_locations := aset st.disk_page_locations p
                (st.disk_next_offset, (c.compress B).length),
              mem := aerase st.mem p } := by
        unfold FreezePage decommitPage WriteToDisk
        rw [if_pos hdb, if_pos hcb]
        dsimp only
        rw [hg, if_pos hcB.1]
        rfl
      have hd1 : DiskInv (FreezePage c true st p) := by
        rw [e1]
        show st.disk_next_offset + (c.compress B).length
          = (writeBytesAt st.disk_file st.disk_next_offset
              (c.compress B)).length
        rw [hwB, List.length_append, hdi]
      have hfile : (FreezePage c true st p).disk_file
          = st.disk_file ++ c.compress B := by
        rw [e1]
        exact hwB _
      have hidx : alookup (FreezePage c true st p).disk_page_locations p
          = some (st.disk_next_offset, (c.compress B).length) := by
        rw [e1]
        exact alookup_aset_self _ _ _
      have hql := freezeList_other c p qs (FreezePage c true st p) hqs hd1
      obtain ⟨ext, hext⟩ := hql.2.1
      have hcfg : (freezeList c true qs
          (FreezePage c true st p)).config = st.config := by
        rw [hql.2.2.2.2, e1]
      have hidx2 : alookup (freezeList c true qs
            (FreezePage c true st p)).disk_page_locations p
          = some (st.disk_next_offset, (c.compress B).length) := by
        rw [hql.2.2.1, hidx]
      unfold restorePage
      rw [if_pos (by rw [hcfg]; exact hdb), hidx2]
      dsimp only
      rw [if_pos (by rw [hcfg]; exact hcb)]
      have hread : ReadFromDisk (freezeList c true qs
            (FreezePage c true st p))
          st.disk_next_offset (c.compress B).length
          = some (c.compress B) := by
        unfold ReadFromDisk
        rw [hext, hfile, hdi, List.append_assoc]
        rw [if_pos (by
          rw [List.length_append, List.length_append]
          omega)]
        rw [List.drop_left, List.take_left]
      rw [hread]
      dsimp only
      rw [hcB.2]
      exact alookup_aset_self _ _ _
    · -- disk-backed, raw
      have e1 : FreezePage c true st p
          = { st with
              disk_file := writeBytesAt st.disk_file st.disk_next_offset B,
              disk_next_offset := st.disk_next_offset + B.length,
              disk_page_locations := aset st.disk_page_locations p
                (st.disk_next_offset, PAGE_SIZE),
              mem := aerase st.mem p } := by
        unfold FreezePage decommitPage WriteToDisk
        rw [if_pos hdb, if_neg hcb]
        dsimp only
        rw [hg]
        rfl
      have hd1 : DiskInv (FreezePage c true st p) := by
        rw [e1]
        show st.disk_next_offset + B.length
          = (writeBytesAt st.disk_file st.disk_next_offset B).length
        rw [hwB, List.length_append, hdi]
      have hfile : (FreezePage c true st p).disk_file
          = st.disk_file ++ B := by
        rw [e1]
        exact hwB _
      have hidx : alookup (FreezePage c true st p).disk_page_locations p
          = some (st.disk_next_offset, PAGE_SIZE) := by
        rw [e1]
        exact alookup_aset_self _ _ _
      have hql := freezeList_other c p qs (FreezePage c true st p) hqs hd1
      obtain ⟨ext, hext⟩ := hql.2.1
      have hcfg : (freezeList c true qs
          (FreezePage c true st p)).config = st.config := by
        rw [hql.2.2.2.2, e1]
      have hidx2 : alookup (freezeList c true qs
            (FreezePage c true st p)).disk_page_locations p
          = some (st.disk_next_offset, PAGE_SIZE) := by
        rw [hql.2.2.1, hidx]
      unfold restorePage
      rw [if_pos (by rw [hcfg]; exact hdb), hidx2]
      dsimp only
      rw [if_neg (by rw [hcfg]; exact hcb)]
      have hread : ReadFromDisk (freezeList c true qs
            (FreezePage c true st p))
          st.disk_next_offset PAGE_SIZE = some B := by
        unfold ReadFromDisk
        rw [hext, hfile, hdi, ← hlen, List.append_assoc]
        rw [if_pos (by
          rw [List.length_append, List.length_append]
          omega)]
        rw [List.drop_left, List.take_left]
      rw [hread]
      exact alookup_aset_self _ _ _
  · -- in-memory backing
    have e1 : FreezePage c true st p
        = { st with
            backing_store := aset st.backing_store p (c.compress B),
            mem := aerase st.mem p } := by
      unfold FreezePage decommitPage
      rw [if_neg hdb]
      dsimp only
      rw [hg, if_pos hcB.1]
    have hd1 : DiskInv (FreezePage c true st p) := by
      rw [e1]
      exact hdi
    have hbk0 : alookup (FreezePage c true st p).backing_store p
        = some (c.compress B) := by
      rw [e1]
      exact alookup_aset_self _ _ _
    have hql := freezeList_other c p qs (FreezePage c true st p) hqs hd1
    have hcfg : (freezeList c true qs
        (FreezePage c true st p)).config = st.config := by
      rw [hql.2.2.2.2, e1]
    have hbk : alookup (freezeList c true qs
          (FreezePage c true st p)).backing_store p
        = some (c.compress B) := by
      rw [hql.2.2.2.1, hbk0]
    unfold restorePage
    rw [if_neg (by rw [hcfg]; exact hdb), hbk]
    dsimp only
    rw [hcB.2]
    exact alookup_aset_self _ _ _

theorem idCodec_lawful : Codec.lawful idCodec := by
  intro p hp
  constructor
  · show 0 < p.length
    rw [hp]
    norm_num [PAGE_SIZE]
  · rfl

def c2State : MState := { mem := [(4096, List.replicate PAGE_SIZE 0)] }

/-- C2 witness: the round-trip theorem at a concrete in-memory-mode state. -/
theorem C2_round_trip_witness :
    Codec.lawful idCodec
    ∧ alookup c2State.mem 4096 = some (List.replicate PAGE_SIZE 0)
    ∧ DiskInv c2State
    ∧ alookup (restorePage idCodec (freezeList idCodec true []
        (FreezePage idCodec true c2State 4096)) 4096).mem 4096
      = some (List.replicate PAGE_SIZE 0) :=
  ⟨idCodec_lawful, rfl, rfl,
    C2_round_trip idCodec c2State 4096 (List.replicate PAGE_SIZE 0) []
      idCodec_lawful rfl (List.length_replicate _ _) rfl
      (fun q hq => absurd hq (List.not_mem_nil q))⟩

end GhostMem
